import Mathlib

/-!
Shallow embedding of the raudio render server and proofs about it.

Sources embedded:
  * src/server/sc-task.ts   — render executor / process runner (renderer spawn,
    stdout buffering, completion-marker parsing, transcode step, cleanup);
  * src/server/job-reader.ts — scheduler/poller (run guard, watchdog, pickup,
    job status writes);
  * src/server/checks.ts    — structural input validation.

Modelling conventions: JS numbers are rationals (no NaN constructor is needed
because the typeof guards in the embedded checks make NaN unreachable except
where noted); timestamps from Date.getTime() are rationals measured in
milliseconds; the Node file system is a list of existing paths; prisma store
calls are applied to an explicit job list in program order; promise settlement
is an explicit Option state.
-/

namespace Raudio

/-! ### Character-list string primitives

JS String.prototype.includes / split / endsWith are modelled structurally over
character lists so that every definition evaluates by kernel reduction. -/

/-- Whether the first list is a prefix of the second. -/
def isPrefixList : List Char → List Char → Bool
  | [], _ => true
  | _ :: _, [] => false
  | a :: as, b :: bs => a == b && isPrefixList as bs

/-- Whether sub occurs as a contiguous sublist. -/
def containsSubChars (sub : List Char) : List Char → Bool
  | [] => isPrefixList sub []
  | c :: rest => isPrefixList sub (c :: rest) || containsSubChars sub rest

/-- JS s.includes(sub). -/
def includesSub (s sub : String) : Bool :=
  containsSubChars sub.toList s.toList

/-- The characters before the first occurrence of sep (all of them when sep
does not occur). -/
def upToFirst (sep : List Char) : List Char → List Char
  | [] => []
  | c :: rest => if isPrefixList sep (c :: rest) then [] else c :: upToFirst sep rest

/-- The characters after the first occurrence of sep, or none when sep does not
occur.  sep is non-empty at every use site. -/
def afterFirst (sep : List Char) : List Char → Option (List Char)
  | [] => none
  | c :: rest =>
    if isPrefixList sep (c :: rest) then some (List.drop (sep.length - 1) rest)
    else afterFirst sep rest

/-- JS l.split(sep)[1] for a non-empty separator: the text strictly between the
first separator occurrence and the next occurrence or the end of the string;
none models the undefined result when sep does not occur. -/
def splitSecond (sep l : String) : Option String :=
  (afterFirst sep.toList l.toList).map (fun cs => String.mk (upToFirst sep.toList cs))

/-- JS s.endsWith(suffix). -/
def endsWithStr (s suffix : String) : Bool :=
  isPrefixList suffix.toList.reverse s.toList.reverse

/-! ### src/server/sc-task.ts — error parsing, completion check, cleanup -/

/-- The error-marker token scanned for on the renderer output (sc-task.ts). -/
def errMarker : String := "xsynxerror"

/-- The completion delimiter token (sc-task.ts checkIsSuccess). -/
def delimToken : String := "xsynx"

/-- sc-task.ts parseErrorOutput: keep the buffered lines containing the error
marker, take the payload after the first marker in each, join with ", ". -/
def parseErrorOutput (output : List String) : String :=
  let lines := output.filter (fun v => includesSub v errMarker)
  String.intercalate ", " (lines.map (fun l => (splitSecond errMarker l).getD ""))

/-- Result of checkIsSuccess: it either returns a boolean or throws. -/
inductive CheckResult where
  | ok (isCompleted : Bool)
  | thrown (msg : String)
deriving DecidableEq

/-- sc-task.ts checkIsSuccess: throws when the error marker occurs in the
buffer, or the buffer is empty, or no buffered line contains the delimiter
(there lines[0] is undefined and .split raises a TypeError); otherwise returns
whether the payload after the first delimiter of the first matching line equals
"completed". -/
def checkIsSuccess (output : List String) : CheckResult :=
  let err := parseErrorOutput output
  if err ≠ "" then .thrown err
  else if output.length = 0 then .thrown "No results to read"
  else
    match output.filter (fun v => includesSub v delimToken) with
    | [] => .thrown "TypeError"
    | l :: _ => .ok ((splitSecond delimToken l).getD "" == "completed")

/-- A settled promise outcome of main: resolve carries the mp3 path (which is
undefined, i.e. none, on the transcode-error path), reject carries an error. -/
inductive Settled where
  | resolvedWith (v : Option String)
  | rejectedWith (e : String)
deriving DecidableEq

/-- A resolve or reject attempt on the promise of main. -/
inductive PEvent where
  | res (v : Option String)
  | rej (e : String)
deriving DecidableEq

/-- The res/rej wrappers of sc-task.ts main (lines 158-165): the first settle
attempt wins; every later attempt is a logged no-op. -/
def settle (st : Option Settled) (e : PEvent) : Option Settled :=
  match st, e with
  | none, .res v => some (.resolvedWith v)
  | none, .rej m => some (.rejectedWith m)
  | some s, _ => some s

/-- A sequence of resolve/reject attempts applied through the guard. -/
def settleAll (st : Option Settled) (evs : List PEvent) : Option Settled :=
  evs.foldl settle st

/-- The settlement produced by an attempt on a fresh promise. -/
def firstSettle : PEvent → Settled
  | .res v => .resolvedWith v
  | .rej m => .rejectedWith m

/-- Node fs.rmSync over a file system modelled as the list of existing paths:
removes the path, or throws when it does not exist. -/
def rmSync (filepath : String) (fs : List String) : Except String (List String) :=
  if filepath ∈ fs then .ok (fs.filter (fun p => p ≠ filepath)) else .error "ENOENT"

/-- sc-task.ts cleanupTmpTemplate: refuses (and only logs) when the path does
not end in ".json"; otherwise deletes it, catching and logging any rmSync
error instead of raising it. -/
def cleanupTmpTemplate (filepath : String) (fs : List String) : List String :=
  if ¬ endsWithStr filepath ".json" then fs
  else
    match rmSync filepath fs with
    | .ok fs2 => fs2
    | .error _ => fs

/-- sc-task.ts cleanupHiResFile: same shape as cleanupTmpTemplate with the
".aiff" extension. -/
def cleanupHiResFile (filepath : String) (fs : List String) : List String :=
  if ¬ endsWithStr filepath ".aiff" then fs
  else
    match rmSync filepath fs with
    | .ok fs2 => fs2
    | .error _ => fs

/-- The close handler of sc-task.ts main (lines 179-201) as a function of the
exit code (none models a null code), the buffered stdout lines, and the
convertAudio outcome.  Returns the promise settlement state after the handler
has run together with the file system after the finally-block cleanups.
A none settlement means the promise of main never settles: checkIsSuccess threw
inside the async handler before the try block, so neither res nor rej ran and
no cleanup happened.  The boolean returned by checkIsSuccess is bound to an
unused local and discarded by the source.  On the transcode-error path the
source calls rej in the catch and then still reaches res(mp3Path) with mp3Path
undefined after the finally; the guard turns that res into a no-op.  The
stderr stream does not reach this handler at all: the stderr listener of main
only logs, so the buffer parsed here contains stdout data only. -/
def mainClose (code : Option Int) (buff : List String)
    (transcode : Except String String) (filepath outpath : String)
    (fs : List String) : Option Settled × List String :=
  if code = some 0 ∨ code = none then
    match checkIsSuccess buff with
    | .thrown _ => (none, fs)
    | .ok _ =>
      match transcode with
      | .ok mp3Path =>
        (settleAll none [.res (some mp3Path)],
         cleanupHiResFile outpath (cleanupTmpTemplate filepath fs))
      | .error _ =>
        (settleAll none [.rej "Unexpected lame error", .res none],
         cleanupHiResFile outpath (cleanupTmpTemplate filepath fs))
  else
    (settleAll none [.rej (parseErrorOutput buff)], fs)

/-! ### src/server/job-reader.ts — job store, run guard, scheduler tick -/

/-- The persisted job status enum (prisma schema / job-reader.ts). -/
inductive JobStatus where
  | pending
  | started
  | satisfied
  | failed
deriving DecidableEq

/-- A Job record: the fields the scheduler reads and writes. -/
structure Job where
  id : Nat
  createdAt : Nat
  status : JobStatus
deriving DecidableEq

/-- A RenderTask record (one-to-one with a Job). -/
structure RenderTask where
  id : Nat
  name : String
  performanceId : Nat
  jobId : Nat
deriving DecidableEq

/-- A Recording record as used by the completion path. -/
structure Recording where
  uri : String
  performanceId : Nat
deriving DecidableEq

/-- prisma.job.update setting the status of the record with the given id.
A missing id leaves the store unchanged (the prisma error is caught and logged
at every call site). -/
def updateStatus (jobId : Nat) (st : JobStatus) (jobs : List Job) : List Job :=
  jobs.map (fun j => if j.id = jobId then { j with status := st } else j)

/-- job-reader.ts markFailed. -/
def markFailed (jobId : Nat) (jobs : List Job) : List Job :=
  updateStatus jobId .failed jobs

/-- job-reader.ts markStarted (called at the top of run). -/
def markStarted (jobId : Nat) (jobs : List Job) : List Job :=
  updateStatus jobId .started jobs

/-- job-reader.ts markSatisfied. -/
def markSatisfied (jobId : Nat) (jobs : List Job) : List Job :=
  updateStatus jobId .satisfied jobs

/-- The status of the stored job with the given id. -/
def statusOf (jobId : Nat) (jobs : List Job) : Option JobStatus :=
  (jobs.find? (fun j => j.id = jobId)).map Job.status

/-- The accumulator step realizing the orderBy createdAt "desc" / findFirst
semantics: keep the record with the strictly greater createdAt, the earlier
one on ties. -/
def pickNewer (acc : Option Job) (j : Job) : Option Job :=
  match acc with
  | none => some j
  | some b => if j.createdAt > b.createdAt then some j else some b

/-- job-reader.ts getNextJob: prisma.job.findFirst with where status="pending"
and orderBy createdAt "desc" — the pending job with the greatest createdAt
(the first such record when several tie). -/
def getNextJob (jobs : List Job) : Option Job :=
  (jobs.filter (fun j => j.status = JobStatus.pending)).foldl pickNewer none

/-- prisma.renderTask.findFirst with where jobId. -/
def findTask (tasks : List RenderTask) (jobId : Nat) : Option RenderTask :=
  tasks.find? (fun t => t.jobId = jobId)

/-- The module-level spawnState of job-reader.ts: the run guard.  tid is
whether a reschedule timer is currently armed; lastRefresh is a
Date.getTime() value in milliseconds. -/
structure SpawnState where
  jobId : Option Nat
  tid : Bool
  lastRefresh : ℚ
deriving DecidableEq

/-- job-reader.ts maxRenderTimeSeconds (line 32). -/
def maxRenderTimeSeconds : ℚ := 50

/-- job-reader.ts refresh (lines 153-157): reset lastRefresh to now and drop
the timer id, then re-enter tick.  The jobId field is not touched. -/
def refresh (s : SpawnState) (now : ℚ) : SpawnState :=
  { s with lastRefresh := now, tid := false }

/-- The finally of the run promise chain (job-reader.ts line 213): clear the
run guard's jobId, then re-enter tick. -/
def runFinally (s : SpawnState) : SpawnState :=
  { s with jobId := none }

/-- The watchdog comparison of job-reader.ts line 163-164 exactly as written in
the source: runTime = now.getTime() - spawnState.lastRefresh.getTime() / 1000,
compared against maxRenderTimeSeconds.  Only the lastRefresh side is divided
by 1000 (the unit-mismatch the specification flags). -/
def watchdogFires (now lastRefresh : ℚ) : Bool :=
  decide (now - lastRefresh / 1000 > maxRenderTimeSeconds)

/-- What one invocation of tick did: the spawn state it left behind, the job
store after its awaited prisma writes, whether it armed the reschedule timer,
which job the watchdog marked failed (its deferred markFailed chain ends in
refresh and a re-entered tick), and which run it launched (task lookup result
paired with the picked job; launching immediately calls markStarted). -/
structure TickResult where
  spawn : SpawnState
  jobs : List Job
  timerArmed : Bool
  watchdogFailed : Option Nat
  launched : Option (Option RenderTask × Job)
deriving DecidableEq

/-- The watchdog decision at the top of tick (job-reader.ts lines 160-172):
when the run guard is non-empty and the runTime comparison fires, the guarded
job id is the one the deferred markFailed chain targets. -/
def tickWd (s : SpawnState) (now : ℚ) : Option Nat :=
  match s.jobId with
  | some j => if watchdogFires now s.lastRefresh then some j else none
  | none => none

/-- The job store after the watchdog block of tick: the running job is marked
failed exactly when the watchdog fired. -/
def tickJobs1 (s : SpawnState) (jobs : List Job) (now : ℚ) : List Job :=
  match tickWd s now with
  | some j => markFailed j jobs
  | none => jobs

/-- One invocation of job-reader.ts tick (lines 159-214), with the store
effects of the prisma calls applied in program order.  The watchdog block runs
first but does not return: the same invocation falls through to the timer
check and the pickup logic.  lookupFails models the caught prisma connection
error of the renderTask lookup; on it the tick rearms the timer and abandons
the pickup.  A launched run sets the guard's jobId to the picked job and
writes started to that job. -/
def tick (s : SpawnState) (jobs : List Job) (tasks : List RenderTask)
    (now : ℚ) (lookupFails : Bool) : TickResult :=
  let wd := tickWd s now
  let jobs1 := tickJobs1 s jobs now
  if s.tid then
    { spawn := { s with tid := true }, jobs := jobs1, timerArmed := true,
      watchdogFailed := wd, launched := none }
  else
    match getNextJob jobs1 with
    | none =>
      { spawn := { s with tid := true }, jobs := jobs1, timerArmed := true,
        watchdogFailed := wd, launched := none }
    | some next =>
      if lookupFails then
        { spawn := { s with tid := true }, jobs := jobs1, timerArmed := true,
          watchdogFailed := wd, launched := none }
      else
        { spawn := { s with tid := false, jobId := some next.id },
          jobs := markStarted next.id jobs1, timerArmed := false,
          watchdogFailed := wd, launched := some (findTask tasks next.id, next) }

/-- The completion chain of run (job-reader.ts lines 197-213): a string result
from run is turned into a rejection and marks the job failed; a Recording
result marks the job satisfied and notifies the downstream service with the
performance id and the recording uri.  Both writes are unconditional on the
job's currently stored status. -/
def runCompletion (taskDoc : RenderTask) (result : Sum String Recording)
    (next : Job) (jobs : List Job) : List Job × Option (Nat × String) :=
  match result with
  | .inl _ => (markFailed next.id jobs, none)
  | .inr created => (markSatisfied next.id jobs, some (taskDoc.performanceId, created.uri))

/-! ### src/server/checks.ts — structural validation -/

/-- A JS runtime value as far as the embedded checks inspect one.  Numbers are
rationals; a NaN constructor is unnecessary here because every numeric check
below guards with a typeof test before comparing, and the comparison helpers
treat non-coercible values as NaN already. -/
inductive Value where
  | num (q : ℚ)
  | str (s : String)
  | boolean (b : Bool)
  | null
  | undefined
  | arr (xs : List Value)
  | obj (fields : List (String × Value))

/-- JS typeof. -/
def typeofV : Value → String
  | .num _ => "number"
  | .str _ => "string"
  | .boolean _ => "boolean"
  | .null => "object"
  | .undefined => "undefined"
  | .arr _ => "object"
  | .obj _ => "object"

/-- Decimal digit string to a natural number; none when a non-digit occurs. -/
def digitsToNat : List Char → Option Nat
  | [] => some 0
  | c :: rest =>
    if c.isDigit then
      (digitsToNat rest).map (fun n => (c.toNat - 48) * 10 ^ rest.length + n)
    else none

/-- JS ToNumber on a string, restricted to the forms that can matter here: the
empty string is 0, an optionally minus-signed decimal digit string is its
value, anything else is NaN (none).  Fractional, exponent, hex and whitespace
forms are not modelled; no check in this code base compares such a string. -/
def strToNumber (s : String) : Option ℚ :=
  match s.toList with
  | [] => some 0
  | '-' :: rest =>
    if rest = [] then none
    else (digitsToNat rest).map (fun n => -(n : ℚ))
  | cs => (digitsToNat cs).map (fun n => (n : ℚ))

/-- JS ToNumber (none = NaN).  Array and object operands coerce through
ToPrimitive, which is not modelled; they are treated as NaN here, and no claim
compares an array or object numerically. -/
def toNumberV : Value → Option ℚ
  | .num q => some q
  | .boolean b => some (if b then 1 else 0)
  | .null => some 0
  | .undefined => none
  | .str s => strToNumber s
  | .arr _ => none
  | .obj _ => none

/-- JS x >= c for a numeric literal right operand; NaN compares false. -/
def jsGe (x : Value) (c : ℚ) : Bool :=
  match toNumberV x with
  | some q => decide (c ≤ q)
  | none => false

/-- JS x <= c; NaN compares false. -/
def jsLe (x : Value) (c : ℚ) : Bool :=
  match toNumberV x with
  | some q => decide (q ≤ c)
  | none => false

/-- JS x > c; NaN compares false. -/
def jsGt (x : Value) (c : ℚ) : Bool :=
  match toNumberV x with
  | some q => decide (c < q)
  | none => false

/-- JS x < c; NaN compares false. -/
def jsLt (x : Value) (c : ℚ) : Bool :=
  match toNumberV x with
  | some q => decide (q < c)
  | none => false

/-- checks.ts posNum: typeof number, not NaN, and strictly positive. -/
def posNum (x : Value) : Bool :=
  match x with
  | .num q => decide (0 < q)
  | _ => false

/-- checks.ts range (line 13), exactly as written: because && binds tighter
than ||, this is (typeof number ∧ x ≤ 1) ∨ x ≥ 0 — not the [0,1] interval
test its name suggests. -/
def range (x : Value) : Bool :=
  (typeofV x == "number" && jsLe x 1) || jsGe x 0

/-- checks.ts is.freq: posNum(x) && x > 0.1 && x < 21000. -/
def freq (x : Value) : Bool :=
  posNum x && jsGt x (1 / 10) && jsLt x 21000

/-- JS x[i] on an array value: undefined beyond the end. -/
def getIdx (xs : List Value) (i : Nat) : Value :=
  (xs.get? i).getD .undefined

/-- checks.ts is.mote: isArray(x) && posNum(x[0]) && is.freq(x[1]) &&
range(x[2]).  There is no check of the array's length. -/
def mote (x : Value) : Bool :=
  match x with
  | .arr xs => posNum (getIdx xs 0) && freq (getIdx xs 1) && range (getIdx xs 2)
  | _ => false

/-! ### src/server/checks.ts — shapeOf and errorsOf

A schema is a list of named field checks.  A field check returns
Except String Bool: ok b for an ordinary boolean verdict, error e when the
check itself throws (as the nested shapeOf validators do). -/

/-- A shapes entry: field names with their check functions. -/
abbrev Schema : Type := List (String × (Value → Except String Bool))

/-- JS property read x[field]: throws a TypeError on null (which is
typeof "object") and undefined; yields undefined for a missing field and for
every other non-object value. -/
def getField (x : Value) (f : String) : Except String Value :=
  match x with
  | .null => .error "TypeError"
  | .undefined => .error "TypeError"
  | .obj fields => .ok (((fields.find? (fun p => p.1 = f)).map Prod.snd).getD .undefined)
  | _ => .ok .undefined

/-- The Object.keys(schema).every(k => schema[k](x[k])) of matchObject: run the
checks in schema order, stopping at the first false verdict or thrown error. -/
def checksAll (schema : Schema) (x : Value) : Except String Bool :=
  match schema with
  | [] => .ok true
  | (f, chk) :: rest =>
    match getField x f with
    | .error e => .error e
    | .ok v =>
      match chk v with
      | .error e => .error e
      | .ok true => checksAll rest x
      | .ok false => .ok false

/-- The message errorsOf pushes for a failed field (the JSON rendering of the
offending value is abbreviated away; no claim depends on it). -/
def fieldMsg (f : String) : String :=
  "Failed typecheck for field <" ++ f ++ ">"

/-- checks.ts errorsOf (lines 298-309): re-run every field check, collecting a
message for each failed field; a check that itself throws propagates. -/
def errorsOf (schema : Schema) (x : Value) : Except String (List String) :=
  match schema with
  | [] => .ok []
  | (f, chk) :: rest =>
    match getField x f with
    | .error e => .error e
    | .ok v =>
      match chk v with
      | .error e => .error e
      | .ok b =>
        match errorsOf rest x with
        | .error e => .error e
        | .ok msgs => .ok (if b then msgs else fieldMsg f :: msgs)

/-- The validator returned by checks.ts shapeOf (lines 320-333): returns false
for a non-object input, true when every field check passes, and otherwise
throws an Error carrying the joined errorsOf messages (or whatever a field
check itself threw while re-running). -/
def matchObject (schema : Schema) (x : Value) : Except String Bool :=
  if typeofV x ≠ "object" then .ok false
  else
    match checksAll schema x with
    | .error e => .error e
    | .ok true => .ok true
    | .ok false =>
      match errorsOf schema x with
      | .error e => .error e
      | .ok msgs => .error (String.intercalate ", " msgs)

/-! ### Helper lemmas -/

/-- An already settled promise is unchanged by any further attempts. -/
theorem lem_settleAll_some (o : Settled) (evs : List PEvent) :
    settleAll (some o) evs = some o := by
  induction evs with
  | nil => rfl
  | cons e rest ih =>
    show settleAll (settle (some o) e) rest = some o
    cases e <;> simpa [settle] using ih

/-! ### Claim C6 -/

/-- C6: the promise of main is settled at most once.  Once an outcome is
recorded, every later resolve or reject attempt (duplicate close events, the
timeout path, the transcode error path whose trailing res follows its rej)
leaves the recorded outcome unchanged, and on a fresh promise the first
attempt alone determines the outcome. -/
theorem claim_C6_settled_at_most_once :
    ∀ (o : Settled) (evs : List PEvent) (e : PEvent),
      settleAll (some o) evs = some o ∧
      settleAll none (e :: evs) = some (firstSettle e) := by
  intro o evs e
  refine ⟨lem_settleAll_some o evs, ?_⟩
  show settleAll (settle none e) evs = some (firstSettle e)
  cases e <;> simpa [settle, firstSettle] using lem_settleAll_some _ evs

/-! ### Claim C7 -/

/-- C7: both cleanup helpers are total (no exception reaches the caller in the
model: the rmSync error branch is handled inside the definition), delete only
a path carrying their expected extension, delete nothing else, and are
idempotent — re-running on an already-removed path leaves the file system
unchanged. -/
theorem claim_C7_cleanup_safe :
    ∀ (fp : String) (fs : List String),
      (endsWithStr fp ".json" = false → cleanupTmpTemplate fp fs = fs) ∧
      (endsWithStr fp ".json" = true →
        cleanupTmpTemplate fp fs = fs.filter (fun p => p ≠ fp)) ∧
      cleanupTmpTemplate fp (cleanupTmpTemplate fp fs) = cleanupTmpTemplate fp fs ∧
      (endsWithStr fp ".aiff" = false → cleanupHiResFile fp fs = fs) ∧
      (endsWithStr fp ".aiff" = true →
        cleanupHiResFile fp fs = fs.filter (fun p => p ≠ fp)) ∧
      cleanupHiResFile fp (cleanupHiResFile fp fs) = cleanupHiResFile fp fs := by
  intro fp fs
  have hjson : ∀ gs : List String, endsWithStr fp ".json" = true →
      cleanupTmpTemplate fp gs = gs.filter (fun p => p ≠ fp) := by
    intro gs hend
    by_cases hmem : fp ∈ gs
    · simp [cleanupTmpTemplate, hend, rmSync, hmem]
    · have hfe : gs.filter (fun p => p ≠ fp) = gs :=
        List.filter_eq_self.mpr (fun a ha => by
          simp only [decide_eq_true_eq, ne_eq]
          rintro rfl
          exact hmem ha)
      rw [hfe]
      simp [cleanupTmpTemplate, hend, rmSync, hmem]
  have haiff : ∀ gs : List String, endsWithStr fp ".aiff" = true →
      cleanupHiResFile fp gs = gs.filter (fun p => p ≠ fp) := by
    intro gs hend
    by_cases hmem : fp ∈ gs
    · simp [cleanupHiResFile, hend, rmSync, hmem]
    · have hfe : gs.filter (fun p => p ≠ fp) = gs :=
        List.filter_eq_self.mpr (fun a ha => by
          simp only [decide_eq_true_eq, ne_eq]
          rintro rfl
          exact hmem ha)
      rw [hfe]
      simp [cleanupHiResFile, hend, rmSync, hmem]
  refine ⟨fun h => by simp [cleanupTmpTemplate, h], hjson fs, ?_, fun h => by
    simp [cleanupHiResFile, h], haiff fs, ?_⟩
  · by_cases hend : endsWithStr fp ".json" = true
    · rw [hjson fs hend, hjson _ hend, List.filter_filter]
      simp
    · have h0 : endsWithStr fp ".json" = false := by
        cases h : endsWithStr fp ".json" <;> simp_all
      simp [cleanupTmpTemplate, h0]
  · by_cases hend : endsWithStr fp ".aiff" = true
    · rw [haiff fs hend, haiff _ hend, List.filter_filter]
      simp
    · have h0 : endsWithStr fp ".aiff" = false := by
        cases h : endsWithStr fp ".aiff" <;> simp_all
      simp [cleanupHiResFile, h0]

/-- C7 witness: a concrete .json path is deleted and nothing else is. -/
theorem claim_C7_cleanup_safe_witness :
    endsWithStr "/tmp/a.json" ".json" = true ∧
    cleanupTmpTemplate "/tmp/a.json" ["/tmp/a.json", "/mnt/o.aiff"] = ["/mnt/o.aiff"] :=
  ⟨by decide,
    ((claim_C7_cleanup_safe "/tmp/a.json" ["/tmp/a.json", "/mnt/o.aiff"]).2.1
      (by decide)).trans (by decide)⟩

/-! ### Claim C5 -/

/-- C5 counterexample: the claim says the failure error string of a non-zero
exit is parsed from the standard-error lines.  In the source the stderr
listener only logs and nothing of stderr reaches the close handler; the error
string is parsed from the buffered standard-output lines.  Concretely, with
stdout buffer carrying payload A and a stderr line carrying payload B, the
promise is rejected with "A", while the claim predicts the stderr-parsed "B"
(parseErrorOutput applied to the stderr lines), and the two differ. -/
theorem claim_C5_counterexample :
    (mainClose (some 1) ["xsynxerrorA"] (.ok "/mnt/o.mp3") "/tmp/t.json" "/mnt/o.aiff" []).1
        = some (.rejectedWith "A") ∧
    parseErrorOutput ["xsynxerrorB"] = "B" ∧
    ("A" : String) ≠ "B" := by decide

/-- C5 amended: exit code 0 or null enters the success path, whose settlement
is decided by the stdout check and the transcode outcome (resolved with the
mp3 path on transcode success, rejected with the fixed lame error on transcode
failure, never settled when the stdout check throws); any other exit code
rejects with the error string parsed from the buffered standard-output lines
containing the error marker, joined by ", ". -/
theorem claim_C5_amended_exit_code_outcomes :
    ∀ (c : Int) (buff : List String) (tr : Except String String) (fp op : String)
      (fs : List String),
      (c ≠ 0 →
        mainClose (some c) buff tr fp op fs
          = (some (.rejectedWith (parseErrorOutput buff)), fs)) ∧
      (∀ b, checkIsSuccess buff = .ok b →
        (mainClose (some 0) buff tr fp op fs).1
          = some (match tr with
                  | .ok mp3 => .resolvedWith (some mp3)
                  | .error _ => .rejectedWith "Unexpected lame error") ∧
        mainClose none buff tr fp op fs = mainClose (some 0) buff tr fp op fs) ∧
      (∀ m, checkIsSuccess buff = .thrown m →
        mainClose (some 0) buff tr fp op fs = (none, fs) ∧
        mainClose none buff tr fp op fs = (none, fs)) := by
  intro c buff tr fp op fs
  refine ⟨fun hc => ?_, fun b hb => ?_, fun m hm => ?_⟩
  · simp [mainClose, hc, settleAll, settle]
  · cases tr <;> simp [mainClose, hb, settleAll, settle]
  · cases tr <;> simp [mainClose, hm]

/-- C5 amended witness: a concrete non-zero exit with an empty buffer rejects
with the empty parsed error string. -/
theorem claim_C5_amended_witness :
    mainClose (some 1) [] (.ok "/mnt/o.mp3") "/tmp/t.json" "/mnt/o.aiff" []
      = (some (.rejectedWith ""), []) :=
  ((claim_C5_amended_exit_code_outcomes 1 [] (.ok "/mnt/o.mp3") "/tmp/t.json" "/mnt/o.aiff"
      []).1 (by decide)).trans (by decide)

/-! ### Claim C1 -/

/-- C1: the code contradicts the claim.  checkIsSuccess computes whether the
delimiter-wrapped payload equals "completed", but main binds the result to an
unused local and never branches on it: with exit code 0 and payload "done" the
promise still resolves with the mp3 path, and the scheduler's completion chain
then marks the job satisfied.  When no buffered line contains the delimiter at
all, checkIsSuccess throws inside the async close handler, so the promise
never settles — the executor reports no failure there either. -/
theorem claim_C1_ignored_completion_token :
    checkIsSuccess ["xsynxdone"] = .ok false ∧
    (mainClose (some 0) ["xsynxdone"] (.ok "/mnt/o.mp3") "/tmp/t.json" "/mnt/o.aiff" []).1
        = some (.resolvedWith (some "/mnt/o.mp3")) ∧
    statusOf 1 (runCompletion ⟨7, "t", 9, 1⟩ (.inr ⟨"t.mp3", 9⟩) ⟨1, 10, .started⟩
        [⟨1, 10, .started⟩]).1 = some .satisfied ∧
    checkIsSuccess ["no delimiter here"] = .thrown "TypeError" ∧
    (mainClose (some 0) ["no delimiter here"] (.ok "/mnt/o.mp3") "/tmp/t.json" "/mnt/o.aiff"
        []).1 = none := by decide

/-! ### Helper lemmas about the job store and the fold of getNextJob -/

/-- A successful pickNewer fold result is the accumulator or a list element. -/
theorem lem_foldl_pickNewer_mem (l : List Job) :
    ∀ (acc : Option Job) (r : Job), l.foldl pickNewer acc = some r →
      acc = some r ∨ r ∈ l := by
  induction l with
  | nil => intro acc r h; exact Or.inl h
  | cons j t ih =>
    intro acc r h
    rcases ih (pickNewer acc j) r h with h1 | h1
    · cases acc with
      | none =>
        have hj : j = r := by simpa [pickNewer] using h1
        subst hj
        exact Or.inr (List.mem_cons_self _ _)
      | some b =>
        by_cases hgt : j.createdAt > b.createdAt
        · have hj : j = r := by simpa [pickNewer, hgt] using h1
          subst hj
          exact Or.inr (List.mem_cons_self _ _)
        · have hb : b = r := by simpa [pickNewer, hgt] using h1
          exact Or.inl (by rw [hb])
    · exact Or.inr (List.mem_cons_of_mem _ h1)

/-- The pickNewer fold result dominates the accumulator and every element. -/
theorem lem_foldl_pickNewer_max (l : List Job) :
    ∀ (acc : Option Job) (r : Job), l.foldl pickNewer acc = some r →
      (∀ b, acc = some b → b.createdAt ≤ r.createdAt) ∧
      ∀ x ∈ l, x.createdAt ≤ r.createdAt := by
  induction l with
  | nil =>
    intro acc r h
    refine ⟨fun b hb => ?_, by simp⟩
    rw [hb] at h
    cases h
    exact le_refl _
  | cons j t ih =>
    intro acc r h
    obtain ⟨hacc, helem⟩ := ih (pickNewer acc j) r h
    have hj : j.createdAt ≤ r.createdAt := by
      cases acc with
      | none => exact hacc j (by simp [pickNewer])
      | some b =>
        by_cases hgt : j.createdAt > b.createdAt
        · exact hacc j (by simp [pickNewer, hgt])
        · exact le_trans (not_lt.mp hgt) (hacc b (by simp [pickNewer, hgt]))
    refine ⟨fun b hb => ?_, fun x hx => ?_⟩
    · subst hb
      by_cases hgt : j.createdAt > b.createdAt
      · exact le_trans (le_of_lt hgt) hj
      · exact hacc b (by simp [pickNewer, hgt])
    · rcases List.mem_cons.mp hx with rfl | hx
      · exact hj
      · exact helem x hx

/-- What a successful getNextJob returns: a pending member of the store whose
createdAt dominates every pending member. -/
theorem lem_getNextJob_spec (jobs : List Job) (j : Job)
    (h : getNextJob jobs = some j) :
    j ∈ jobs ∧ j.status = .pending ∧
    ∀ x ∈ jobs, x.status = .pending → x.createdAt ≤ j.createdAt := by
  unfold getNextJob at h
  rcases lem_foldl_pickNewer_mem _ none j h with h1 | h1
  · cases h1
  · have hf := List.mem_filter.mp h1
    have hmax := lem_foldl_pickNewer_max _ none j h
    refine ⟨hf.1, by simpa using hf.2, fun x hx hpx => ?_⟩
    exact hmax.2 x (List.mem_filter.mpr ⟨hx, by simp [hpx]⟩)

/-- The pickNewer step never yields none. -/
theorem lem_pickNewer_isSome (acc : Option Job) (j : Job) :
    (pickNewer acc j).isSome = true := by
  cases acc with
  | none => rfl
  | some b =>
    by_cases hgt : j.createdAt > b.createdAt <;> simp [pickNewer, hgt]

/-- A pickNewer fold over anything starting from a some, or over a non-empty
list, yields a some. -/
theorem lem_foldl_pickNewer_isSome (l : List Job) :
    ∀ acc : Option Job, acc.isSome = true ∨ l ≠ [] →
      (l.foldl pickNewer acc).isSome = true := by
  induction l with
  | nil =>
    intro acc h
    rcases h with h | h
    · exact h
    · exact absurd rfl h
  | cons j t ih =>
    intro acc _
    exact ih (pickNewer acc j) (Or.inl (lem_pickNewer_isSome acc j))

/-- statusOf over a cons cell. -/
theorem lem_statusOf_cons (a : Job) (t : List Job) (i : Nat) :
    statusOf i (a :: t) = if a.id = i then some a.status else statusOf i t := by
  unfold statusOf
  rw [List.find?_cons]
  by_cases h : a.id = i <;> simp [h]

/-- The status seen through statusOf after an updateStatus write. -/
theorem lem_statusOf_updateStatus (i k : Nat) (st : JobStatus) (jobs : List Job) :
    statusOf i (updateStatus k st jobs)
      = if i = k then (statusOf i jobs).map (fun _ => st) else statusOf i jobs := by
  induction jobs with
  | nil => simp [statusOf, updateStatus]
  | cons j t ih =>
    have hu : updateStatus k st (j :: t)
        = (if j.id = k then { j with status := st } else j) :: updateStatus k st t := rfl
    rw [hu]
    by_cases hjk : j.id = k
    · rw [if_pos hjk, lem_statusOf_cons, lem_statusOf_cons]
      by_cases hji : j.id = i
      · have hik : i = k := by rw [← hji, hjk]
        simp [hji, hik]
      · simp [hji, ih]
    · rw [if_neg hjk, lem_statusOf_cons, lem_statusOf_cons]
      by_cases hji : j.id = i
      · have hik : ¬ i = k := fun hh => hjk (by rw [hji, hh])
        simp [hji, hik]
      · simp [hji, ih]

/-- A member of an updateStatus image carrying the targeted id carries the
written status. -/
theorem lem_mem_updateStatus_id (x : Job) (k : Nat) (st : JobStatus) (l : List Job)
    (hx : x ∈ updateStatus k st l) (hid : x.id = k) : x.status = st := by
  obtain ⟨y, hy, hfy⟩ := List.mem_map.mp hx
  by_cases hyk : y.id = k
  · rw [← hfy]; simp [hyk]
  · rw [← hfy] at hid
    simp [hyk] at hid

/-- A pending member of a markFailed image was already in the original store
(markFailed writes failed, never pending). -/
theorem lem_pending_mem_of_markFailed (x : Job) (k : Nat) (l : List Job)
    (hx : x ∈ markFailed k l) (hp : x.status = .pending) : x ∈ l := by
  obtain ⟨y, hy, hfy⟩ := List.mem_map.mp hx
  by_cases hyk : y.id = k
  · rw [← hfy] at hp; simp [hyk] at hp
  · rw [← hfy]; simpa [hyk] using hy

/-- An id present in the store has a statusOf value. -/
theorem lem_statusOf_isSome (j : Nat) (jobs : List Job) :
    (∃ jb ∈ jobs, jb.id = j) → ∃ st, statusOf j jobs = some st := by
  induction jobs with
  | nil => rintro ⟨jb, h, -⟩; cases h
  | cons a t ih =>
    rintro ⟨jb, hjb, hid⟩
    rw [lem_statusOf_cons]
    by_cases ha : a.id = j
    · exact ⟨a.status, by simp [ha]⟩
    · rcases List.mem_cons.mp hjb with rfl | hm
      · exact absurd hid ha
      · obtain ⟨st, hst⟩ := ih ⟨jb, hm, hid⟩
        exact ⟨st, by simp [ha, hst]⟩

/-- Case analysis of one tick invocation: the watchdog verdict is always
recorded, and the tick either arms the timer without launching (leaving the
store at the post-watchdog state and the guard untouched apart from tid), or
launches the pending job getNextJob found, writing started and pointing the
guard at it. -/
theorem lem_tick_cases (s : SpawnState) (jobs : List Job) (tasks : List RenderTask)
    (now : ℚ) (lf : Bool) :
    (tick s jobs tasks now lf).watchdogFailed = tickWd s now ∧
    (((tick s jobs tasks now lf).launched = none ∧
      (tick s jobs tasks now lf).jobs = tickJobs1 s jobs now ∧
      (tick s jobs tasks now lf).spawn = { s with tid := true } ∧
      (tick s jobs tasks now lf).timerArmed = true) ∨
     (∃ next, getNextJob (tickJobs1 s jobs now) = some next ∧
      (tick s jobs tasks now lf).launched = some (findTask tasks next.id, next) ∧
      (tick s jobs tasks now lf).jobs = markStarted next.id (tickJobs1 s jobs now) ∧
      (tick s jobs tasks now lf).spawn = { s with tid := false, jobId := some next.id } ∧
      (tick s jobs tasks now lf).timerArmed = false)) := by
  by_cases hts : s.tid = true
  · refine ⟨by simp [tick, hts], Or.inl ?_⟩
    simp [tick, hts]
  · have hts' : s.tid = false := by
      cases h : s.tid
      · rfl
      · exact absurd h hts
    cases hnext : getNextJob (tickJobs1 s jobs now) with
    | none =>
      refine ⟨by simp [tick, hts', hnext], Or.inl ?_⟩
      simp [tick, hts', hnext]
    | some next =>
      cases lf with
      | true =>
        refine ⟨by simp [tick, hts', hnext], Or.inl ?_⟩
        simp [tick, hts', hnext]
      | false =>
        refine ⟨by simp [tick, hts', hnext], Or.inr ⟨next, rfl, ?_, ?_, ?_, ?_⟩⟩ <;>
          simp [tick, hts', hnext]

/-! ### Claim C8 -/

/-- C8: getNextJob selects among the pending jobs the one with the greatest
creation time — most-recently-created first, LIFO — and it finds one whenever
any pending job exists. -/
theorem claim_C8_picks_newest_pending :
    ∀ (jobs : List Job),
      (∀ j, getNextJob jobs = some j →
        j ∈ jobs ∧ j.status = .pending ∧
        ∀ x ∈ jobs, x.status = .pending → x.createdAt ≤ j.createdAt) ∧
      ((∃ x ∈ jobs, x.status = .pending) → (getNextJob jobs).isSome = true) := by
  intro jobs
  refine ⟨fun j h => lem_getNextJob_spec jobs j h, fun hex => ?_⟩
  obtain ⟨x, hx, hpx⟩ := hex
  unfold getNextJob
  refine lem_foldl_pickNewer_isSome _ none (Or.inr ?_)
  exact List.ne_nil_of_mem (List.mem_filter.mpr ⟨hx, by simp [hpx]⟩)

/-- C8 witness: with an older and a newer pending job and a failed one, the
newer pending job (createdAt 20) is selected, not the older (createdAt 10). -/
theorem claim_C8_witness :
    getNextJob [⟨1, 10, .pending⟩, ⟨2, 20, .pending⟩, ⟨3, 30, .failed⟩]
        = some ⟨2, 20, .pending⟩ ∧
    (⟨2, 20, .pending⟩ : Job)
        ∈ ([⟨1, 10, .pending⟩, ⟨2, 20, .pending⟩, ⟨3, 30, .failed⟩] : List Job) ∧
    (⟨2, 20, .pending⟩ : Job).status = .pending ∧
    ∀ x ∈ ([⟨1, 10, .pending⟩, ⟨2, 20, .pending⟩, ⟨3, 30, .failed⟩] : List Job),
      x.status = .pending → x.createdAt ≤ (⟨2, 20, .pending⟩ : Job).createdAt :=
  ⟨by decide,
    (claim_C8_picks_newest_pending
      [⟨1, 10, .pending⟩, ⟨2, 20, .pending⟩, ⟨3, 30, .failed⟩]).1
      ⟨2, 20, .pending⟩ (by decide)⟩

/-! ### Claim C4 -/

/-- C4: with a non-empty run guard, the watchdog fires exactly when the
computed elapsed expression of the source — now minus lastRefresh divided by
1000 — exceeds maxRenderTimeSeconds (50); when it fires, the guarded job
present in the store ends the tick marked failed (no process event is
involved: tick takes no process input), and when it does not fire the
watchdog marks nothing. -/
theorem claim_C4_watchdog_fires_iff :
    ∀ (s : SpawnState) (jobs : List Job) (tasks : List RenderTask) (now : ℚ)
      (lf : Bool) (j : Nat),
      s.jobId = some j →
      (((tick s jobs tasks now lf).watchdogFailed = some j) ↔
        now - s.lastRefresh / 1000 > maxRenderTimeSeconds) ∧
      (now - s.lastRefresh / 1000 > maxRenderTimeSeconds →
        (∃ jb ∈ jobs, jb.id = j) →
        statusOf j (tick s jobs tasks now lf).jobs = some .failed) ∧
      (¬ now - s.lastRefresh / 1000 > maxRenderTimeSeconds →
        (tick s jobs tasks now lf).watchdogFailed = none) := by
  intro s jobs tasks now lf j hj
  obtain ⟨hwd, hcases⟩ := lem_tick_cases s jobs tasks now lf
  refine ⟨?_, ?_, ?_⟩
  · rw [hwd]
    unfold tickWd
    rw [hj]
    unfold watchdogFires
    by_cases hfire : now - s.lastRefresh / 1000 > maxRenderTimeSeconds <;>
      simp [hfire]
  · intro hgt hex
    have hfire : watchdogFires now s.lastRefresh = true := by
      simp [watchdogFires, hgt]
    have hjobs1 : tickJobs1 s jobs now = markFailed j jobs := by
      simp [tickJobs1, tickWd, hj, hfire]
    obtain ⟨st, hst⟩ := lem_statusOf_isSome j jobs hex
    have hstat1 : statusOf j (tickJobs1 s jobs now) = some .failed := by
      rw [hjobs1, markFailed, lem_statusOf_updateStatus, if_pos rfl, hst]
      rfl
    rcases hcases with ⟨-, hjobs, -, -⟩ | ⟨next, hnext, -, hjobs, -, -⟩
    · rw [hjobs]; exact hstat1
    · have hspec := lem_getNextJob_spec _ _ hnext
      have hne : ¬ j = next.id := by
        intro hjeq
        have hmem1 : next ∈ markFailed j jobs := by rw [← hjobs1]; exact hspec.1
        have : next.status = JobStatus.failed :=
          lem_mem_updateStatus_id next j .failed jobs hmem1 (by rw [hjeq])
        rw [hspec.2.1] at this
        cases this
      rw [hjobs, markStarted, lem_statusOf_updateStatus, if_neg hne]
      exact hstat1
  · intro hng
    rw [hwd]
    have hfire : watchdogFires now s.lastRefresh = false := by
      simp [watchdogFires, hng]
    simp [tickWd, hj, hfire]

/-- C4 witness: guard on job 1, lastRefresh 0, now 60000 — the computed
expression 60000 - 0/1000 exceeds 50, and job 1 ends the tick failed. -/
theorem claim_C4_witness :
    statusOf 1 (tick ⟨some 1, false, 0⟩ [⟨1, 10, .started⟩] [] 60000 false).jobs
      = some .failed :=
  (claim_C4_watchdog_fires_iff ⟨some 1, false, 0⟩ [⟨1, 10, .started⟩] [] 60000 false 1
    rfl).2.1 (by norm_num [maxRenderTimeSeconds])
    ⟨⟨1, 10, .started⟩, by simp, rfl⟩

/-! ### Claim C2 -/

/-- C2 counterexample: on the watchdog path the run guard's jobId is not
cleared before the next tick's pickup logic runs.  Concretely: the watchdog
has failed job 1 and its deferred chain calls refresh at time 61000 — the
resulting guard still holds jobId 1 — and the re-entered tick then runs the
pickup logic, launching pending job 2, although the guard was never cleared
in between.  This refutes the claim's "cleared before the next tick's pickup
logic runs, for every way a run finishes": refresh (job-reader.ts 153-157)
resets only lastRefresh and tid. -/
theorem claim_C2_counterexample :
    (refresh ⟨some 1, false, 0⟩ 61000).jobId = some 1 ∧
    (tick (refresh ⟨some 1, false, 0⟩ 61000)
        [⟨1, 10, .failed⟩, ⟨2, 20, .pending⟩] [⟨7, "t", 9, 2⟩] 61500 false).launched
      = some (some ⟨7, "t", 9, 2⟩, ⟨2, 20, .pending⟩) := by
  constructor
  · rfl
  · have hfire : watchdogFires 61500 61000 = true := by
      norm_num [watchdogFires, maxRenderTimeSeconds]
    simp [refresh, tick, tickJobs1, tickWd, hfire, markFailed, updateStatus,
      getNextJob, pickNewer, findTask, List.find?]

/-- C2 amended: on executor success and executor failure the run guard's
jobId is cleared (runFinally) before tick re-enters; on the watchdog path the
deferred refresh resets only tid and lastRefresh, leaving jobId unchanged,
and the guard is next overwritten (not cleared) when a launch points it at
the newly picked job; a tick that launches nothing leaves jobId as it found
it.  The guard is a single optional field, so it holds at most one job id at
any instant regardless. -/
theorem claim_C2_amended_guard_clearing :
    ∀ (s : SpawnState) (now : ℚ) (jobs : List Job) (tasks : List RenderTask)
      (lf : Bool),
      (runFinally s).jobId = none ∧
      (refresh s now).jobId = s.jobId ∧
      (refresh s now).tid = false ∧
      (∀ td next, (tick s jobs tasks now lf).launched = some (td, next) →
        (tick s jobs tasks now lf).spawn.jobId = some next.id) ∧
      ((tick s jobs tasks now lf).launched = none →
        (tick s jobs tasks now lf).spawn.jobId = s.jobId) := by
  intro s now jobs tasks lf
  obtain ⟨-, hcases⟩ := lem_tick_cases s jobs tasks now lf
  refine ⟨rfl, rfl, rfl, ?_, ?_⟩
  · intro td next hl
    rcases hcases with ⟨hnone, -, -, -⟩ | ⟨n, -, hl2, -, hsp, -⟩
    · rw [hnone] at hl; cases hl
    · rw [hl2] at hl
      simp only [Option.some.injEq, Prod.mk.injEq] at hl
      rw [hsp, hl.2]
  · intro hnone
    rcases hcases with ⟨-, -, hsp, -⟩ | ⟨n, -, hl2, -, -, -⟩
    · rw [hsp]
    · rw [hl2] at hnone; cases hnone

/-- C2 amended witness: a launch points the guard at the picked job. -/
theorem claim_C2_amended_witness :
    (tick ⟨none, false, 0⟩ [⟨2, 20, .pending⟩] [] 0 false).spawn.jobId = some 2 :=
  (claim_C2_amended_guard_clearing ⟨none, false, 0⟩ 0 [⟨2, 20, .pending⟩] []
    false).2.2.2.1 none ⟨2, 20, .pending⟩ (by decide)

/-! ### Claim C3 -/

/-- C3 counterexample: the completion chain writes satisfied to a job already
in terminal status.  Concretely: job 1 is running (guard set, lastRefresh 0);
the tick at 60000 fires the watchdog and the store holds job 1 failed; the
executor's success outcome then arrives for the same job and runCompletion
writes satisfied over the terminal failed — refuting "no operation of the
Scheduler ever writes satisfied or started to a job already in a terminal
status". -/
theorem claim_C3_counterexample :
    statusOf 1 (tick ⟨some 1, false, 0⟩ [⟨1, 10, .started⟩] [] 60000 false).jobs
        = some .failed ∧
    statusOf 1 (runCompletion ⟨7, "t", 9, 1⟩ (.inr ⟨"t.mp3", 9⟩) ⟨1, 10, .started⟩
        (tick ⟨some 1, false, 0⟩ [⟨1, 10, .started⟩] [] 60000 false).jobs).1
      = some .satisfied := by
  have hfire : watchdogFires 60000 0 = true := by
    norm_num [watchdogFires, maxRenderTimeSeconds]
  constructor
  · simp [tick, tickJobs1, tickWd, hfire, markFailed, updateStatus, getNextJob,
      pickNewer, statusOf, List.find?]
  · simp [tick, tickJobs1, tickWd, hfire, markFailed, markSatisfied, updateStatus,
      getNextJob, pickNewer, statusOf, runCompletion, List.find?]

/-- C3 amended: the pending → started → terminal order holds for the started
write — a launch only ever writes started to a job that the pickup query
found pending in the store — but the terminal writes are unconditional, so
the watchdog/executor race can overwrite a terminal failed with satisfied
(see the counterexample). -/
theorem claim_C3_amended_started_only_pending :
    ∀ (s : SpawnState) (jobs : List Job) (tasks : List RenderTask) (now : ℚ)
      (lf : Bool) (td : Option RenderTask) (next : Job),
      (tick s jobs tasks now lf).launched = some (td, next) →
      next.status = .pending ∧ next ∈ jobs := by
  intro s jobs tasks now lf td next hl
  obtain ⟨-, hcases⟩ := lem_tick_cases s jobs tasks now lf
  rcases hcases with ⟨hnone, -, -, -⟩ | ⟨n, hn, hl2, -, -, -⟩
  · rw [hnone] at hl; cases hl
  · rw [hl2] at hl
    simp only [Option.some.injEq, Prod.mk.injEq] at hl
    obtain ⟨-, hn2⟩ := hl
    subst hn2
    have hspec := lem_getNextJob_spec _ _ hn
    refine ⟨hspec.2.1, ?_⟩
    unfold tickJobs1 at hspec
    cases hwd : tickWd s now with
    | none => rw [hwd] at hspec; exact hspec.1
    | some k =>
      rw [hwd] at hspec
      exact lem_pending_mem_of_markFailed _ k jobs hspec.1 hspec.2.1

/-- C3 amended witness: a concrete launch whose picked job is pending and in
the store. -/
theorem claim_C3_amended_witness :
    (⟨5, 50, .pending⟩ : Job).status = .pending ∧
    (⟨5, 50, .pending⟩ : Job) ∈ ([⟨5, 50, .pending⟩] : List Job) :=
  claim_C3_amended_started_only_pending ⟨none, false, 0⟩ [⟨5, 50, .pending⟩] [] 0
    false none ⟨5, 50, .pending⟩ (by decide)

/-! ### Claim C9 -/

/-- C9: the code contradicts the claim.  The range check of checks.ts line 13
reads x <= 1 || x >= 0 under the &&-over-|| precedence, so it accepts every
number (any rational is ≤ 1 or ≥ 0): amplitude 2 and amplitude -5 both pass,
and is.mote also never checks that the tuple has length 3, so a 4-element
event passes as well.  The claim (and the spec) require amplitude in [0,1]
and a 3-tuple. -/
theorem claim_C9_mote_accepts_out_of_range :
    mote (.arr [.num 1, .num 440, .num 2]) = true ∧
    range (.num 2) = true ∧
    range (.num (-5)) = true ∧
    mote (.arr [.num 1, .num 440, .num (1 / 2), .num 7]) = true := by
  norm_num [mote, getIdx, posNum, freq, range, jsGt, jsLt, jsLe, jsGe, toNumberV,
    typeofV]

/-! ### Claim C10 -/

/-- Every schema field whose check returns ok false at the read value is named
in the message list errorsOf produces. -/
theorem lem_errorsOf_mentions (x : Value) (f : String)
    (chk : Value → Except String Bool) (v : Value) :
    ∀ (schema : Schema) (msgs : List String), (f, chk) ∈ schema →
      getField x f = .ok v → chk v = .ok false →
      errorsOf schema x = .ok msgs → fieldMsg f ∈ msgs := by
  intro schema
  induction schema with
  | nil => intro msgs h; cases h
  | cons p rest ih =>
    intro msgs hmem hgf hchk he
    obtain ⟨g, c⟩ := p
    cases hg : getField x g with
    | error e => simp [errorsOf, hg] at he
    | ok w =>
      cases hcw : c w with
      | error e => simp [errorsOf, hg, hcw] at he
      | ok b =>
        cases hrest : errorsOf rest x with
        | error e => simp [errorsOf, hg, hcw, hrest] at he
        | ok rmsgs =>
          simp only [errorsOf, hg, hcw, hrest] at he
          injection he with he'
          rcases List.mem_cons.mp hmem with hhead | htail
          · simp only [Prod.mk.injEq] at hhead
            obtain ⟨hf, hc⟩ := hhead
            subst hf
            subst hc
            rw [hgf] at hg
            injection hg with hvw
            subst hvw
            rw [hchk] at hcw
            injection hcw with hb
            subst hb
            rw [← he']
            simp
          · have hmemr := ih rmsgs htail hgf hchk hrest
            rw [← he']
            cases b with
            | true => simpa using hmemr
            | false => exact List.mem_cons_of_mem _ hmemr

/-- C10: the validator matchObject returned by shapeOf yields ok false exactly
for inputs that are not of object type; for an object-typed input whose field
checks fail it throws an Error carrying the joined errorsOf messages, and
those messages name every failed field — so shape-based checks such as
is.composition never report a malformed object by returning false. -/
theorem claim_C10_shape_validator_throws :
    ∀ (schema : Schema) (x : Value),
      (matchObject schema x = .ok false ↔ typeofV x ≠ "object") ∧
      (∀ msgs, typeofV x = "object" → checksAll schema x = .ok false →
        errorsOf schema x = .ok msgs →
        matchObject schema x = .error (String.intercalate ", " msgs)) ∧
      (∀ f chk v msgs, (f, chk) ∈ schema → getField x f = .ok v →
        chk v = .ok false → errorsOf schema x = .ok msgs → fieldMsg f ∈ msgs) := by
  intro schema x
  refine ⟨⟨?_, ?_⟩, ?_, ?_⟩
  · intro h
    by_cases ht : typeofV x = "object"
    · exfalso
      unfold matchObject at h
      rw [if_neg (fun hne => hne ht)] at h
      cases hc : checksAll schema x with
      | error e => rw [hc] at h; cases h
      | ok b =>
        cases b with
        | true => rw [hc] at h; cases h
        | false =>
          rw [hc] at h
          cases he : errorsOf schema x with
          | error e => rw [he] at h; cases h
          | ok msgs => rw [he] at h; cases h
    · exact ht
  · intro ht
    unfold matchObject
    rw [if_pos ht]
  · intro msgs ht hc he
    unfold matchObject
    rw [if_neg (fun hne => hne ht), hc, he]
  · intro f chk v msgs hmem hgf hchk he
    exact lem_errorsOf_mentions x f chk v schema msgs hmem hgf hchk he

/-- A one-field schema requiring a string value, used to exercise the shapeOf
validator on a concrete malformed object. -/
def strFieldSchema : Schema :=
  [("root", fun v => .ok (match v with | .str _ => true | _ => false))]

/-- C10 witness: a malformed object makes the validator throw the message
naming the failed field rather than return false. -/
theorem claim_C10_witness :
    matchObject strFieldSchema (.obj [("root", .num 0)])
      = .error "Failed typecheck for field <root>" :=
  ((claim_C10_shape_validator_throws strFieldSchema (.obj [("root", .num 0)])).2.1
    ["Failed typecheck for field <root>"] rfl rfl rfl).trans
    (congrArg Except.error (by decide))

end Raudio
